import Mathlib

/-!
# NaTrack-Back — Challenge & Card Assignment Engine, shallow embedding

A shallow embedding of the daily challenge batch (`bot-challenges-daily.js`)
and the request-time completion detector (`app.js`, `handleChallengeCompletion`),
together with proofs about them.

JavaScript numbers are modelled by `JSNum`: either one of the three non-finite
IEEE values (`NaN`, `+Infinity`, `-Infinity`) or an exact rational.  All the
arithmetic the embedded code performs on finite values (sums and products of
weights, `base * (1 + delta)`, `Math.round`) is exact in the ranges involved,
so rationals are a faithful carrier for the finite case, while the non-finite
values and their propagation/comparison rules are modelled explicitly.

Date strings (`YYYY-MM-DD`) are kept as `String` and compared with the string
order, exactly as the JavaScript source compares them with `<` / `>=` / `<=`.
-/

/-- A JavaScript number: `NaN`, `+Infinity`, `-Infinity`, or a finite value
(modelled as an exact rational). -/
inductive JSNum where
  | nan : JSNum
  | posInf : JSNum
  | negInf : JSNum
  | finite : ℚ → JSNum
deriving DecidableEq, Repr

namespace JSNum

/-- JavaScript truthiness of a number: `NaN` and `0` are falsy, everything
else (including the infinities) is truthy. -/
def truthy : JSNum → Bool
  | nan => false
  | finite q => q != 0
  | _ => true

/-- `Number.isFinite`. -/
def isFinite : JSNum → Bool
  | finite _ => true
  | _ => false

/-- JavaScript `x || d` on numbers: `d` when `x` is falsy, else `x`. -/
def orElse (x d : JSNum) : JSNum :=
  if x.truthy then x else d

/-- JavaScript addition: `NaN` propagates, `Infinity + (-Infinity)` is `NaN`,
an infinity absorbs finite values. -/
def add : JSNum → JSNum → JSNum
  | nan, _ => nan
  | _, nan => nan
  | posInf, negInf => nan
  | negInf, posInf => nan
  | posInf, _ => posInf
  | _, posInf => posInf
  | negInf, _ => negInf
  | _, negInf => negInf
  | finite a, finite b => finite (a + b)

/-- JavaScript negation. -/
def neg : JSNum → JSNum
  | nan => nan
  | posInf => negInf
  | negInf => posInf
  | finite a => finite (-a)

/-- JavaScript subtraction. -/
def sub (x y : JSNum) : JSNum := add x (neg y)

/-- JavaScript multiplication: `NaN` propagates, `±Infinity * 0` is `NaN`,
otherwise infinities follow the sign rules. -/
def mul : JSNum → JSNum → JSNum
  | nan, _ => nan
  | _, nan => nan
  | posInf, posInf => posInf
  | posInf, negInf => negInf
  | negInf, posInf => negInf
  | negInf, negInf => posInf
  | posInf, finite b => if b = 0 then nan else if 0 < b then posInf else negInf
  | finite a, posInf => if a = 0 then nan else if 0 < a then posInf else negInf
  | negInf, finite b => if b = 0 then nan else if 0 < b then negInf else posInf
  | finite a, negInf => if a = 0 then nan else if 0 < a then negInf else posInf
  | finite a, finite b => finite (a * b)

/-- JavaScript `x <= y`: false whenever `NaN` is involved. -/
def le : JSNum → JSNum → Bool
  | nan, _ => false
  | _, nan => false
  | negInf, _ => true
  | _, posInf => true
  | posInf, _ => false
  | finite _, negInf => false
  | finite a, finite b => a ≤ b

/-- JavaScript `x < y`: false whenever `NaN` is involved. -/
def lt : JSNum → JSNum → Bool
  | nan, _ => false
  | _, nan => false
  | negInf, negInf => false
  | negInf, _ => true
  | posInf, _ => false
  | finite _, posInf => true
  | finite _, negInf => false
  | finite a, finite b => a < b

/-- `Math.max(0, x)`: `NaN` propagates; `-Infinity` is clamped to `0`. -/
def max0 : JSNum → JSNum
  | nan => nan
  | posInf => posInf
  | negInf => finite 0
  | finite a => finite (max 0 a)

end JSNum

/-- `Math.round` on a finite value: round half toward `+Infinity`,
i.e. `⌊x + 1/2⌋`. -/
def jsRound (q : ℚ) : ℤ := ⌊q + 1 / 2⌋

/-- `Number(x)` applied to a nullable number: `Number(null) = 0`. -/
def toNumber : Option JSNum → JSNum
  | none => JSNum.finite 0
  | some x => x

/-- JavaScript nullish coalescing `a ?? b` on nullable numbers. -/
def jsCoalesce (a b : Option JSNum) : Option JSNum :=
  match a with
  | none => b
  | some v => some v

/-!
## `pickWeighted` (bot-challenges-daily.js, lines 72–82)

```js
function pickWeighted(items, weightFn) {
  const weights = items.map((item) => Math.max(0, Number(weightFn(item)) || 0));
  const total = weights.reduce((sum, w) => sum + w, 0);
  if (total <= 0) return null;
  let roll = Math.random() * total;
  for (let i = 0; i < items.length; i += 1) {
    roll -= weights[i];
    if (roll <= 0) return items[i];
  }
  return items[items.length - 1] || null;
}
```

The weight function is modelled as already returning the result of the
`Number(...)` coercion (a `JSNum`; non-numeric results coerce to `NaN`).
`Math.random()`'s draw is passed in as an explicit rational `r ∈ [0, 1)`.
-/

/-- `Math.max(0, Number(w) || 0)` — the per-item weight coercion of
`pickWeighted`. -/
def coerceWeight (w : JSNum) : JSNum :=
  JSNum.max0 (JSNum.orElse w (JSNum.finite 0))

/-- The coerced weights array of `pickWeighted`. -/
def pickWeights {α : Type} (items : List α) (weightFn : α → JSNum) : List JSNum :=
  items.map (fun item => coerceWeight (weightFn item))

/-- `weights.reduce((sum, w) => sum + w, 0)`. -/
def pickTotal {α : Type} (items : List α) (weightFn : α → JSNum) : JSNum :=
  (pickWeights items weightFn).foldl JSNum.add (JSNum.finite 0)

/-- The subtract-and-test loop of `pickWeighted`, walking item/weight pairs. -/
def pickLoop {α : Type} : List (α × JSNum) → JSNum → Option α
  | [], _ => none
  | (x, w) :: rest, roll =>
    let roll' := JSNum.sub roll w
    if JSNum.le roll' (JSNum.finite 0) then some x else pickLoop rest roll'

/-- `pickWeighted(items, weightFn)`, with the uniform draw `r` (the value of
`Math.random()`) passed explicitly. -/
def pickWeighted {α : Type} (items : List α) (weightFn : α → JSNum) (r : ℚ) :
    Option α :=
  let total := pickTotal items weightFn
  if JSNum.le total (JSNum.finite 0) then none
  else
    match pickLoop (items.zip (pickWeights items weightFn))
        (JSNum.mul (JSNum.finite r) total) with
    | some x => some x
    | none => items.getLast?

/-!
## Date helpers (bot-challenges-daily.js, lines 8–25)

`addDays` parses a `YYYY-MM-DD` string, adds a number of days with civil
calendar arithmetic (what `Date.setDate` performs), and re-formats.  The
embedding uses the standard days-from-civil / civil-from-days conversion.
No claim depends on the calendar arithmetic itself; dates elsewhere are
compared purely as strings, as in the source.
-/

/-- Days since 1970-01-01 of a civil date (proleptic Gregorian). -/
def daysFromCivil (y m d : ℤ) : ℤ :=
  let y' := if m ≤ 2 then y - 1 else y
  let era := Int.fdiv y' 400
  let yoe := y' - era * 400
  let mp := Int.fmod (m + 9) 12
  let doy := Int.fdiv (153 * mp + 2) 5 + d - 1
  let doe := yoe * 365 + Int.fdiv yoe 4 - Int.fdiv yoe 100 + doy
  era * 146097 + doe - 719468

/-- Civil date (year, month, day) of a days-since-1970-01-01 count. -/
def civilFromDays (z : ℤ) : ℤ × ℤ × ℤ :=
  let z' := z + 719468
  let era := Int.fdiv z' 146097
  let doe := z' - era * 146097
  let yoe := Int.fdiv (doe - Int.fdiv doe 1460 + Int.fdiv doe 36524 - Int.fdiv doe 146096) 365
  let y := yoe + era * 400
  let doy := doe - (365 * yoe + Int.fdiv yoe 4 - Int.fdiv yoe 100)
  let mp := Int.fdiv (5 * doy + 2) 153
  let d := doy - Int.fdiv (153 * mp + 2) 5 + 1
  let m := Int.fmod (mp + 2) 12 + 1
  (if m ≤ 2 then y + 1 else y, m, d)

/-- Zero-pad a natural number to two digits (`String(x).padStart(2, "0")`). -/
def pad2 (n : ℕ) : String :=
  if n < 10 then "0" ++ toString n else toString n

/-- Format a civil date as `YYYY-MM-DD` (`getLocalDateString`). -/
def formatCivil : ℤ × ℤ × ℤ → String
  | (y, m, d) => toString y ++ "-" ++ pad2 m.toNat ++ "-" ++ pad2 d.toNat

/-- Parse a `YYYY-MM-DD` string into a civil date. -/
def parseCivil (s : String) : Option (ℤ × ℤ × ℤ) :=
  match (s.splitOn "-").map String.toNat? with
  | [some y, some m, some d] => some ((y : ℤ), (m : ℤ), (d : ℤ))
  | _ => none

/-- `addDays(dateStr, days)`: civil-calendar day addition on a `YYYY-MM-DD`
string (an unparsable input — impossible for the engine's date strings —
maps to the JS `NaN`-date formatting, represented by the fixed string the
source would produce from an invalid date). -/
def addDays (dateStr : String) (days : ℤ) : String :=
  match parseCivil dateStr with
  | some (y, m, d) => formatCivil (civilFromDays (daysFromCivil y m d + days))
  | none => "NaN-NaN-NaN"

/-!
## Distance Target Calculator (bot-challenges-daily.js, lines 27–38)

```js
function jitterDistance(baseMeters, ratio = 0.15) {
  const base = Number(baseMeters);
  if (!Number.isFinite(base) || base <= 0) return null;
  const delta = (Math.random() * (ratio * 2)) - ratio;
  return Math.round(base * (1 + delta));
}

function normalizeMeters(value) {
  const num = Number(value);
  if (!Number.isFinite(num) || num <= 0) return null;
  return num < 1000 ? Math.round(num * 1000) : num;
}
```
-/

/-- `jitterDistance(baseMeters, ratio)`, with the uniform draw `rand`
(the value of `Math.random()`) passed explicitly; `none` models `null`. -/
def jitterDistance (baseMeters : Option JSNum) (ratio : ℚ) (rand : ℚ) :
    Option ℤ :=
  match toNumber baseMeters with
  | JSNum.finite base =>
    if base ≤ 0 then none
    else
      let delta := rand * (ratio * 2) - ratio
      some (jsRound (base * (1 + delta)))
  | _ => none

/-- `normalizeMeters(value)`; `none` models `null`. -/
def normalizeMeters (value : Option JSNum) : Option ℚ :=
  match toNumber value with
  | JSNum.finite num =>
    if num ≤ 0 then none
    else if num < 1000 then some ((jsRound (num * 1000) : ℤ) : ℚ)
    else some num
  | _ => none

/-!
## Data model

Rows of the tables the engine reads and writes.  Identifiers are modelled as
naturals (the source uses UUID strings; only equality of identifiers matters).
Timestamp-valued columns that no claim observes (`created_at`,
`completed_at`, `due_at`) are elided; the creation order of challenge rows is
represented positionally: lists hold the most recently created row first, so
`ORDER BY created_at DESC LIMIT 1` is a first-match scan.
-/

/-- A bot row from `users` (the columns the batch selects). -/
structure BotRow where
  id : ℕ
  name : String
  avg_distance_m : Option JSNum
  bot_card_type : Option String
  bot_season_int : Option ℤ
  bot_event_date : Option String
  bot_drop_rate : Option JSNum
  bot_target_distance_m : Option JSNum
deriving DecidableEq, Repr

/-- A `user_challenges` row. -/
structure Challenge where
  id : ℕ
  user_id : ℕ
  bot_id : ℕ
  ctype : String
  status : String
  target_distance_m : JSNum
  start_date : String
  due_date : String
  completed_session_id : Option ℕ
deriving DecidableEq, Repr

/-- A `user_card_results` row. -/
structure CardResult where
  user_id : ℕ
  bot_id : ℕ
  ctype : String
  distance_m : ℚ
  target_distance_m : JSNum
  session_id : ℕ
  achieved_at : String
deriving DecidableEq, Repr

/-- A `notifications` row (title/body text elided; `read_at` kept as a
been-read flag). -/
structure Notif where
  user_id : ℕ
  ntype : String
  read : Bool
deriving DecidableEq, Repr

/-- A `sessions` row (the fields the engine touches). -/
structure Session where
  id : ℕ
  user_id : ℕ
  date : String
  distance : ℚ
  stype : String
deriving DecidableEq, Repr

/-- The datastore state the engine reads and writes. -/
structure DB where
  challenges : List Challenge
  cardResults : List CardResult
  notifications : List Notif
  sessions : List Session
deriving DecidableEq, Repr

/-!
## Datastore operations shared by both call sites
-/

/-- The most recent `status = 'active'` challenge of a user
(`... WHERE user_id = ? AND status = 'active' ORDER BY created_at DESC
LIMIT 1`); challenge lists are most-recent-first, so this is a first-match
scan. -/
def getActiveCh (chs : List Challenge) (userId : ℕ) : Option Challenge :=
  chs.find? (fun c => c.status == "active" && c.user_id == userId)

/-- `UPDATE user_challenges SET status = 'expired' WHERE id = ?`. -/
def expireById (chs : List Challenge) (cid : ℕ) : List Challenge :=
  chs.map (fun c => if c.id = cid then { c with status := "expired" } else c)

/-- Number of `status = 'active'` challenge rows of a user. -/
def activeCount (chs : List Challenge) (userId : ℕ) : ℕ :=
  chs.countP (fun c => c.status == "active" && c.user_id == userId)

/-- `INSERT INTO notifications ...` (`createNotification` in both files);
title/body text elided. -/
def createNotification (db : DB) (userId : ℕ) (ntype : String) : DB :=
  { db with notifications :=
      { user_id := userId, ntype := ntype, read := false } :: db.notifications }

/-- `ensureBotSession(pool, botId, dateStr, distanceMeters)`
(bot-challenges-daily.js, lines 91–103): insert a synthetic bot session for
the day unless one already exists.  `!botId` is modelled as `botId = 0`
(identifiers are naturals standing in for UUID strings, with `0` as the
falsy identifier). -/
def ensureBotSession (db : DB) (sid : ℕ) (botId : ℕ) (dateStr : String)
    (distanceMeters : JSNum) : DB :=
  match distanceMeters with
  | JSNum.finite distance =>
    if botId = 0 ∨ distance ≤ 0 then db
    else if db.sessions.any (fun s => s.user_id == botId && s.date == dateStr) then db
    else { db with sessions :=
      { id := sid, user_id := botId, date := dateStr,
        distance := distance, stype := "run" } :: db.sessions }
  | _ => db

/-!
## Candidate pools and selection weights (bot-challenges-daily.js, lines 144–151 and 184–193)
-/

/-- The source compares `String(b.bot_season_int) === String(activeSeason)`
where both operands are SQL integers or null and `activeSeason` is non-null
at the call site.  Decimal strings of two integers are equal exactly when the
integers are equal, and `String(null) = "null"` is never an integer's decimal
string, so the comparison is equivalent to this equality test on the
underlying nullable integer. -/
def jsSeasonEq (botSeason : Option ℤ) (activeSeason : ℤ) : Bool :=
  match botSeason with
  | none => false
  | some n => n == activeSeason

/-- The challenge-pool weight function (lines 185–193):
`(Number(b.bot_drop_rate) || 1) * seasonBoost * rarePenalty`. -/
def challengeWeight (activeSeason : Option ℤ) (b : BotRow) : JSNum :=
  let base := JSNum.orElse (toNumber b.bot_drop_rate) (JSNum.finite 1)
  let seasonBoost : ℚ :=
    match activeSeason with
    | some s => if jsSeasonEq b.bot_season_int s then 3 / 2 else 1
    | none => 1
  let rarePenalty : ℚ := if b.bot_card_type == some "rare" then 1 / 2 else 1
  JSNum.mul (JSNum.mul base (JSNum.finite seasonBoost)) (JSNum.finite rarePenalty)

/-- The event-pool weight function (line 151): `Number(b.bot_drop_rate) || 1`. -/
def eventWeight (b : BotRow) : JSNum :=
  JSNum.orElse (toNumber b.bot_drop_rate) (JSNum.finite 1)

/-- The event pool (lines 144–146): type `evenement`, event date today,
positive target. -/
def eventBotsOf (today : String) (bots : List BotRow) : List BotRow :=
  bots.filter (fun b =>
    b.bot_card_type == some "evenement" && b.bot_event_date == some today &&
      JSNum.lt (JSNum.finite 0) (toNumber b.bot_target_distance_m))

/-- The challenge pool (lines 147–149): type `defi` or `rare`, positive
average distance. -/
def challengeBotsOf (bots : List BotRow) : List BotRow :=
  bots.filter (fun b =>
    (b.bot_card_type == some "defi" || b.bot_card_type == some "rare") &&
      JSNum.lt (JSNum.finite 0) (toNumber b.avg_distance_m))

/-- The run-once daily event bot selection (line 151), with the draw passed
explicitly. -/
def dailyEventBotOf (today : String) (bots : List BotRow) (eventR : ℚ) :
    Option BotRow :=
  let eventBots := eventBotsOf today bots
  if eventBots.isEmpty then none
  else pickWeighted eventBots eventWeight eventR

/-- JavaScript `x || d` on a nullable string (`bot.bot_card_type || "defi"`):
null and the empty string are falsy. -/
def jsStrOr (x : Option String) (d : String) : String :=
  match x with
  | none => d
  | some s => if s = "" then d else s

/-!
## Challenge Lifecycle Manager: the per-user batch step
(bot-challenges-daily.js, lines 153–232)
-/

/-- Batch-run context shared by every user of one run. -/
structure BatchParams where
  today : String
  activeSeason : Option ℤ
  dailyEventBot : Option BotRow
  challengeBots : List BotRow
deriving Repr

/-- The per-user random draws and fresh identifiers consumed by one loop
iteration (`Math.random()` and `crypto.randomUUID()` made explicit). -/
structure UserOracle where
  pickR : ℚ
  jitR : ℚ
  challengeId : ℕ
  sessionId : ℕ
deriving Repr

/-- Lines 170–198: choose the bot, target distance (`null` when dropped),
challenge type and due date for one user — the daily event bot when one was
selected for the day, else a weighted draw from the available challenge
pool with a normalized and jittered target. -/
def choosePick (p : BatchParams) (o : UserOracle) (used : List ℕ) :
    Option (BotRow × Option JSNum × String × String) :=
  let availableChallengeBots := p.challengeBots.filter (fun b => !(used.contains b.id))
  match p.dailyEventBot with
  | some eb =>
    some (eb, some (toNumber eb.bot_target_distance_m), "evenement", p.today)
  | none =>
    if availableChallengeBots.isEmpty then none
    else
      match pickWeighted availableChallengeBots (challengeWeight p.activeSeason)
          o.pickR with
      | none => none
      | some b =>
        let baseDistance :=
          normalizeMeters (jsCoalesce b.bot_target_distance_m b.avg_distance_m)
        let targetDistance :=
          match jitterDistance (baseDistance.map JSNum.finite) (3 / 20) o.jitR with
          | none => none
          | some z => some (JSNum.finite (z : ℚ))
        some (b, targetDistance, jsStrOr b.bot_card_type "defi", addDays p.today 3)

/-- Lines 200–231: `if (!bot || !targetDistance) continue;` then mark the
bot used (non-event only) and persist the new active challenge, its start
notification, and the synthetic bot session. -/
def finishAssign (p : BatchParams) (o : UserOracle) (db : DB) (used : List ℕ)
    (userId : ℕ) :
    Option (BotRow × Option JSNum × String × String) → DB × List ℕ × Option Challenge
  | none => (db, used, none)
  | some (bot, targetDistance?, ctype, dueDate) =>
    match targetDistance? with
    | none => (db, used, none)
    | some t =>
      if !t.truthy then (db, used, none)
      else
        let used' := if ctype ≠ "evenement" then bot.id :: used else used
        let ch : Challenge :=
          { id := o.challengeId, user_id := userId, bot_id := bot.id,
            ctype := ctype, status := "active", target_distance_m := t,
            start_date := p.today, due_date := dueDate,
            completed_session_id := none }
        let db1 := { db with challenges := ch :: db.challenges }
        let db2 := createNotification db1 userId
          (if ctype == "evenement" then "event_start" else "challenge_start")
        (ensureBotSession db2 o.sessionId bot.id p.today t, used', some ch)

/-- Lines 170–231, one user's assignment: selection then persistence. -/
def assignPhase (p : BatchParams) (o : UserOracle) (db : DB) (used : List ℕ)
    (userId : ℕ) : DB × List ℕ × Option Challenge :=
  finishAssign p o db used userId (choosePick p o used)

/-- Lines 153–232, one iteration of `for (const user of users)`: lazy expiry,
event override / skip decision, then `assignPhase`.  Returns the new state,
the new used-bots set, and the challenge row inserted for this user (if
any). -/
def userStep (p : BatchParams) (o : UserOracle) (db : DB) (used : List ℕ)
    (userId : ℕ) : DB × List ℕ × Option Challenge :=
  match getActiveCh db.challenges userId with
  | none => assignPhase p o db used userId
  | some active =>
    let db1 :=
      if active.due_date < p.today
      then { db with challenges := expireById db.challenges active.id } else db
    if p.dailyEventBot.isSome = true ∧ p.today ≤ active.due_date then
      assignPhase p o { db1 with challenges := expireById db1.challenges active.id }
        used userId
    else if p.today ≤ active.due_date then (db1, used, none)
    else assignPhase p o db1 used userId

/-- The whole per-user loop: fold `userStep` over the users, threading state
and the used-bots set, collecting the inserted challenge rows.  `oracles k`
supplies the `k`-th iteration's random draws and fresh identifiers. -/
def batchRun (p : BatchParams) (oracles : ℕ → UserOracle) :
    List ℕ → ℕ → DB → List ℕ → DB × List ℕ × List Challenge
  | [], _, db, used => (db, used, [])
  | userId :: rest, k, db, used =>
    let r1 := userStep p (oracles k) db used userId
    let r2 := batchRun p oracles rest (k + 1) r1.1 r1.2.1
    (r2.1, r2.2.1, r1.2.2.toList ++ r2.2.2)

/-!
## Completion Detector (app.js, lines 141–144 and 169–214)
-/

/-- `isDateBetween(dateStr, startStr, endStr)` (app.js, lines 141–144);
the empty string is the falsy case of the guard. -/
def isDateBetween (dateStr startStr endStr : String) : Bool :=
  if dateStr = "" ∨ startStr = "" ∨ endStr = "" then false
  else decide (startStr ≤ dateStr) && decide (dateStr ≤ endStr)

/-- `UPDATE user_challenges SET status = 'completed', completed_session_id = ?
WHERE id = ? AND status = 'active'`, returning the updated rows and the
affected-row count. -/
def condCompleteUpdate (chs : List Challenge) (cid sessionId : ℕ) :
    List Challenge × ℕ :=
  (chs.map (fun c =>
      if c.id = cid ∧ c.status = "active"
      then { c with status := "completed", completed_session_id := some sessionId }
      else c),
   chs.countP (fun c => c.id == cid && c.status == "active"))

/-- `UPDATE notifications SET read_at = NOW() WHERE user_id = ? AND read_at
IS NULL AND type IN ('challenge_start','event_start')`. -/
def markStartRead (ns : List Notif) (userId : ℕ) : List Notif :=
  ns.map (fun n =>
    if n.user_id == userId && !n.read &&
        (n.ntype == "challenge_start" || n.ntype == "event_start")
    then { n with read := true } else n)

/-- `handleChallengeCompletion` (app.js, lines 169–214), with the state the
initial `getActiveChallenge` query reads (`fetched`) separated from the state
the conditional update and the side effects run against (`db`): between the
two `await`s a concurrent writer may have changed the table, which is exactly
the race the conditional update guards.  Sequential execution is the
`fetched = db.challenges` instance below. -/
def handleChallengeCompletionFrom (fetched : List Challenge) (db : DB)
    (userId sessionId : ℕ) (sessionDate : String) (distance : ℚ) :
    DB × Option Challenge :=
  match getActiveCh fetched userId with
  | none => (db, none)
  | some challenge =>
    if !isDateBetween sessionDate challenge.start_date challenge.due_date then
      (db, none)
    else if JSNum.lt (JSNum.finite distance) challenge.target_distance_m then
      (db, none)
    else
      let upd := condCompleteUpdate db.challenges challenge.id sessionId
      if upd.2 = 0 then ({ db with challenges := upd.1 }, none)
      else
        let cr : CardResult :=
          { user_id := userId, bot_id := challenge.bot_id,
            ctype := challenge.ctype, distance_m := distance,
            target_distance_m := challenge.target_distance_m,
            session_id := sessionId, achieved_at := sessionDate }
        let db1 := { db with challenges := upd.1,
                             cardResults := cr :: db.cardResults }
        let db2 := createNotification db1 userId
          (if challenge.ctype == "evenement" then "event_success"
           else "challenge_success")
        let db3 := { db2 with notifications := markStartRead db2.notifications userId }
        (db3, some challenge)

/-- `handleChallengeCompletion` run sequentially: the fetch and the update
see the same state. -/
def handleChallengeCompletion (db : DB) (userId sessionId : ℕ)
    (sessionDate : String) (distance : ℚ) : DB × Option Challenge :=
  handleChallengeCompletionFrom db.challenges db userId sessionId sessionDate distance

/-!
## Spec-modelled weight composition (spec §4.3, for comparison with the code)
-/

/-- Modelled from the spec: `effective_weight = drop_rate × season_boost ×
rarity_penalty`, where `drop_rate` is the bot's weight ("non-negative weight,
default 1 if absent/invalid"), `season_boost = 1.5` if the bot's season
affinity equals the resolved season else `1`, and `rarity_penalty = 0.5` if
card_type = rare else `1`.  "Absent" is a null column, "invalid" a value that
is not a number. -/
def specEffectiveWeight (activeSeason : Option ℤ) (b : BotRow) : JSNum :=
  let dropRate : JSNum :=
    match b.bot_drop_rate with
    | none => JSNum.finite 1
    | some JSNum.nan => JSNum.finite 1
    | some v => v
  let seasonBoost : ℚ :=
    match activeSeason, b.bot_season_int with
    | some s, some bs => if bs = s then 3 / 2 else 1
    | _, _ => 1
  let rarityPenalty : ℚ := if b.bot_card_type = some "rare" then 1 / 2 else 1
  JSNum.mul (JSNum.mul dropRate (JSNum.finite seasonBoost)) (JSNum.finite rarityPenalty)

/-- Modelled from the spec: "Event pool draws use `drop_rate` alone
(default 1)". -/
def specEventWeight (b : BotRow) : JSNum :=
  match b.bot_drop_rate with
  | none => JSNum.finite 1
  | some JSNum.nan => JSNum.finite 1
  | some v => v

/-- The amended drop-rate factor: default 1 when the column is absent,
invalid (`NaN` after coercion), **or zero** — i.e. whenever the coerced
value is falsy — with any other numeric value (negative or infinite
included) passed through. -/
def amendedDropRate (dr : Option JSNum) : JSNum :=
  match dr with
  | none => JSNum.finite 1
  | some JSNum.nan => JSNum.finite 1
  | some (JSNum.finite q) => if q = 0 then JSNum.finite 1 else JSNum.finite q
  | some v => v

/-- The amended effective weight: as `specEffectiveWeight` but with the
drop-rate default also applying to a stored zero. -/
def amendedEffectiveWeight (activeSeason : Option ℤ) (b : BotRow) : JSNum :=
  let seasonBoost : ℚ :=
    match activeSeason, b.bot_season_int with
    | some s, some bs => if bs = s then 3 / 2 else 1
    | _, _ => 1
  let rarityPenalty : ℚ := if b.bot_card_type = some "rare" then 1 / 2 else 1
  JSNum.mul (JSNum.mul (amendedDropRate b.bot_drop_rate) (JSNum.finite seasonBoost))
    (JSNum.finite rarityPenalty)

/-- The amended event-pool weight: `drop_rate` alone, default 1 when absent,
invalid or zero. -/
def amendedEventWeight (b : BotRow) : JSNum :=
  amendedDropRate b.bot_drop_rate

/-!
## Concrete scenario values used by counterexamples and witnesses
-/

/-- A challenge-pool bot whose stored `bot_drop_rate` is the valid
non-negative number `0`. -/
def zeroRateBot : BotRow :=
  { id := 5, name := "zero", avg_distance_m := some (JSNum.finite 10000),
    bot_card_type := some "defi", bot_season_int := none,
    bot_event_date := none, bot_drop_rate := some (JSNum.finite 0),
    bot_target_distance_m := none }

/-- Weight function sending item `1` to `1` and item `2` to `+Infinity`. -/
def weightWithInf (n : ℕ) : JSNum :=
  if n = 1 then JSNum.finite 1 else JSNum.posInf

/-- Weight function sending item `1` to `NaN` (a non-numeric weight) and
item `2` to `1`. -/
def weightWithNaN (n : ℕ) : JSNum :=
  if n = 1 then JSNum.nan else JSNum.finite 1

/-- A challenge-pool bot whose target distance is the positive finite value
`0.0004` (below `0.0005`). -/
def tinyTargetBot : BotRow :=
  { id := 3, name := "tiny", avg_distance_m := some (JSNum.finite 10000),
    bot_card_type := some "defi", bot_season_int := none,
    bot_event_date := none, bot_drop_rate := none,
    bot_target_distance_m := some (JSNum.finite (1 / 2500)) }

/-- An event bot for 2026-10-11 with an exact 8000 m target. -/
def eventBot0 : BotRow :=
  { id := 7, name := "ev", avg_distance_m := none,
    bot_card_type := some "evenement", bot_season_int := none,
    bot_event_date := some "2026-10-11", bot_drop_rate := none,
    bot_target_distance_m := some (JSNum.finite 8000) }

/-- An in-progress active challenge of user 1, due 2026-10-12. -/
def activeCh0 : Challenge :=
  { id := 10, user_id := 1, bot_id := 2, ctype := "defi", status := "active",
    target_distance_m := JSNum.finite 5000, start_date := "2026-10-09",
    due_date := "2026-10-12", completed_session_id := none }

/-- A one-challenge datastore: user 1 holds `activeCh0`, with its unread
start notification. -/
def db0 : DB :=
  { challenges := [activeCh0], cardResults := [],
    notifications := [{ user_id := 1, ntype := "challenge_start", read := false }],
    sessions := [] }

/-- The empty datastore. -/
def emptyDB : DB :=
  { challenges := [], cardResults := [], notifications := [], sessions := [] }

/-- A fixed per-user oracle for witnesses. -/
def oracle0 : UserOracle :=
  { pickR := 1 / 2, jitR := 1 / 2, challengeId := 42, sessionId := 43 }

/-- Batch context for 2026-10-11 with the event bot selected. -/
def paramsEvent : BatchParams :=
  { today := "2026-10-11", activeSeason := none,
    dailyEventBot := some eventBot0, challengeBots := [] }

/-- Batch context for 2026-10-11 with no event and the tiny-target bot as
the whole challenge pool. -/
def paramsTiny : BatchParams :=
  { today := "2026-10-11", activeSeason := none,
    dailyEventBot := none, challengeBots := [tinyTargetBot] }

/-- The rational carried by a finite `JSNum` (`0` for the non-finite
values); used to state exact-arithmetic facts about all-finite weight
lists. -/
def finPart : JSNum → ℚ
  | JSNum.finite q => q
  | _ => 0

/-!
## Helper lemmas
-/

theorem jsRound_mono {a b : ℚ} (h : a ≤ b) : jsRound a ≤ jsRound b :=
  Int.floor_le_floor (by linarith)

/-- A list with at most one element satisfying `p` has a unique such
element. -/
theorem countP_le_one_unique {α : Type} {p : α → Bool} {l : List α}
    (h : l.countP p ≤ 1) {a b : α} (ha : a ∈ l) (hpa : p a = true)
    (hb : b ∈ l) (hpb : p b = true) : a = b := by
  induction l with
  | nil => cases ha
  | cons x t ih =>
    rw [List.countP_cons] at h
    have ht : t.countP p ≤ 1 := le_trans (Nat.le_add_right _ _) h
    rcases List.mem_cons.mp ha with rfl | ha'
    · rcases List.mem_cons.mp hb with rfl | hb'
      · rfl
      · exfalso
        have h1 : 0 < t.countP p := List.countP_pos_iff.mpr ⟨b, hb', hpb⟩
        rw [if_pos hpa] at h
        omega
    · rcases List.mem_cons.mp hb with rfl | hb'
      · exfalso
        have h1 : 0 < t.countP p := List.countP_pos_iff.mpr ⟨a, ha', hpa⟩
        rw [if_pos hpb] at h
        omega
      · exact ih ht ha' hb'

theorem getActiveCh_none_count {chs : List Challenge} {uid : ℕ}
    (h : getActiveCh chs uid = none) : activeCount chs uid = 0 := by
  unfold getActiveCh at h
  unfold activeCount
  rw [List.countP_eq_zero]
  exact List.find?_eq_none.mp h

theorem getActiveCh_some_facts {chs : List Challenge} {uid : ℕ} {a : Challenge}
    (h : getActiveCh chs uid = some a) :
    a ∈ chs ∧ a.status = "active" ∧ a.user_id = uid := by
  unfold getActiveCh at h
  have hp := List.find?_some h
  simp only [Bool.and_eq_true, beq_iff_eq] at hp
  exact ⟨List.mem_of_find?_eq_some h, hp.1, hp.2⟩

theorem activeCount_cons (c : Challenge) (chs : List Challenge) (u : ℕ) :
    activeCount (c :: chs) u =
      activeCount chs u + (if c.status = "active" ∧ c.user_id = u then 1 else 0) := by
  unfold activeCount
  rw [List.countP_cons]
  congr 1
  by_cases h : c.status = "active" ∧ c.user_id = u
  · rw [if_pos h, if_pos (by simp [h.1, h.2])]
  · rw [if_neg h, if_neg (by simpa using h)]

theorem activeCount_expireById_le (chs : List Challenge) (cid u : ℕ) :
    activeCount (expireById chs cid) u ≤ activeCount chs u := by
  unfold activeCount expireById
  rw [List.countP_map]
  apply List.countP_mono_left
  intro c _ hc
  by_cases hid : c.id = cid
  · simp [Function.comp, hid] at hc
  · simpa [Function.comp, hid] using hc

/-- Under the at-most-one-active bound, expiring the found active challenge
leaves the user with no active challenge. -/
theorem activeCount_expire_self {chs : List Challenge} {uid : ℕ} {a : Challenge}
    (hf : getActiveCh chs uid = some a) (h1 : activeCount chs uid ≤ 1) :
    activeCount (expireById chs a.id) uid = 0 := by
  obtain ⟨hmem, hstat, huser⟩ := getActiveCh_some_facts hf
  unfold activeCount expireById
  rw [List.countP_map, List.countP_eq_zero]
  intro c hc hpc
  by_cases hid : c.id = a.id
  · simp [Function.comp, hid] at hpc
  · have hpc' : (fun c : Challenge => c.status == "active" && c.user_id == uid) c = true := by
      simpa [Function.comp, hid] using hpc
    have hca : c = a :=
      countP_le_one_unique h1 hc hpc' hmem (by simp [hstat, huser])
    exact hid (by rw [hca])

theorem expireById_status {chs : List Challenge} {cid : ℕ} {c : Challenge}
    (hc : c ∈ expireById chs cid) (hid : c.id = cid) : c.status = "expired" := by
  unfold expireById at hc
  obtain ⟨c', _, hc'⟩ := List.mem_map.mp hc
  by_cases h : c'.id = cid
  · rw [if_pos h] at hc'
    rw [← hc']
  · rw [if_neg h] at hc'
    exact absurd (hc' ▸ hid) h

theorem ensureBotSession_challenges (db : DB) (sid botId : ℕ) (d : String)
    (t : JSNum) : (ensureBotSession db sid botId d t).challenges = db.challenges := by
  unfold ensureBotSession
  rcases t with _ | _ | _ | q <;> simp only
  split <;> [rfl; skip]
  split <;> rfl

theorem createNotification_challenges (db : DB) (u : ℕ) (ty : String) :
    (createNotification db u ty).challenges = db.challenges := rfl

/-!
## Claim theorems
-/

/-- **C8**: `normalize(value)` returns `null` for every non-finite or
non-positive input; for positive finite input below 1000 it returns the
input scaled by 1000 and rounded to a whole number, and for input ≥ 1000 it
returns the input unchanged; in particular `normalize(500) = 500000` and
`normalize(5000) = 5000`. -/
theorem normalizeMeters_claim :
    (∀ x : JSNum, x.isFinite = false → normalizeMeters (some x) = none) ∧
    (∀ q : ℚ, q ≤ 0 → normalizeMeters (some (JSNum.finite q)) = none) ∧
    (∀ q : ℚ, 0 < q → q < 1000 →
      normalizeMeters (some (JSNum.finite q)) = some ((jsRound (q * 1000) : ℤ) : ℚ)) ∧
    (∀ q : ℚ, 0 < q → 1000 ≤ q → normalizeMeters (some (JSNum.finite q)) = some q) ∧
    normalizeMeters (some (JSNum.finite 500)) = some 500000 ∧
    normalizeMeters (some (JSNum.finite 5000)) = some 5000 := by
  refine ⟨?_, ?_, ?_, ?_, ?_, ?_⟩
  · intro x hx
    rcases x with _ | _ | _ | q <;> first | rfl | cases hx
  · intro q hq
    simp only [normalizeMeters, toNumber]
    rw [if_pos hq]
  · intro q hq0 hq1000
    simp only [normalizeMeters, toNumber]
    rw [if_neg (not_le.mpr hq0), if_pos hq1000]
  · intro q hq0 hq1000
    simp only [normalizeMeters, toNumber]
    rw [if_neg (not_le.mpr hq0), if_neg (not_lt.mpr hq1000)]
  · simp only [normalizeMeters, toNumber]
    rw [if_neg (by norm_num), if_pos (by norm_num : (500 : ℚ) < 1000)]
    norm_num [jsRound]
  · simp only [normalizeMeters, toNumber]
    rw [if_neg (by norm_num), if_neg (by norm_num)]

/-- Witness for C8 at concrete inputs. -/
theorem normalizeMeters_claim_witness :
    normalizeMeters (some (JSNum.finite (1 / 2))) =
      some ((jsRound ((1 / 2 : ℚ) * 1000) : ℤ) : ℚ) :=
  normalizeMeters_claim.2.2.1 (1 / 2) (by norm_num) (by norm_num)

/-- **C9**: `jitter(base, ratio)` returns `null` for every non-finite or
non-positive base; for every positive finite base, non-negative ratio and
any draw in the unit interval, its output lies within
`[round(base×(1-ratio)), round(base×(1+ratio))]`. -/
theorem jitterDistance_claim :
    (∀ b : Option JSNum, (toNumber b).isFinite = false →
      ∀ ratio rand : ℚ, jitterDistance b ratio rand = none) ∧
    (∀ q : ℚ, q ≤ 0 → ∀ ratio rand : ℚ,
      jitterDistance (some (JSNum.finite q)) ratio rand = none) ∧
    (∀ base ratio rand : ℚ, 0 < base → 0 ≤ ratio → 0 ≤ rand → rand ≤ 1 →
      ∃ z : ℤ, jitterDistance (some (JSNum.finite base)) ratio rand = some z ∧
        jsRound (base * (1 - ratio)) ≤ z ∧ z ≤ jsRound (base * (1 + ratio))) := by
  refine ⟨?_, ?_, ?_⟩
  · intro b hb ratio rand
    unfold jitterDistance
    rcases h : toNumber b with _ | _ | _ | q
    · rfl
    · rfl
    · rfl
    · rw [h] at hb; cases hb
  · intro q hq ratio rand
    simp only [jitterDistance, toNumber]
    rw [if_pos hq]
  · intro base ratio rand hbase hratio hrand0 hrand1
    simp only [jitterDistance, toNumber]
    rw [if_neg (not_le.mpr hbase)]
    refine ⟨_, rfl, ?_, ?_⟩
    · apply jsRound_mono
      nlinarith [mul_nonneg (mul_nonneg hrand0 hratio) hbase.le]
    · apply jsRound_mono
      nlinarith [mul_nonneg (mul_nonneg (sub_nonneg.mpr hrand1) hratio) hbase.le]

/-- Witness for C9 at concrete inputs. -/
theorem jitterDistance_claim_witness :
    ∃ z : ℤ, jitterDistance (some (JSNum.finite 10000)) (3 / 20) (1 / 2) = some z ∧
      jsRound ((10000 : ℚ) * (1 - 3 / 20)) ≤ z ∧
      z ≤ jsRound ((10000 : ℚ) * (1 + 3 / 20)) :=
  jitterDistance_claim.2.2 10000 (3 / 20) (1 / 2) (by norm_num) (by norm_num)
    (by norm_num) (by norm_num)

theorem getLast?_mem {α : Type} {l : List α} {x : α} (h : l.getLast? = some x) :
    x ∈ l := by
  cases l with
  | nil => cases h
  | cons a t =>
    rw [List.getLast?_eq_getLast (a :: t) (by simp)] at h
    cases h
    exact List.getLast_mem (by simp)

theorem pickLoop_mem {α : Type} {pairs : List (α × JSNum)} {roll : JSNum} {x : α}
    (h : pickLoop pairs roll = some x) : ∃ w, (x, w) ∈ pairs := by
  induction pairs generalizing roll with
  | nil => cases h
  | cons pw rest ih =>
    obtain ⟨y, w⟩ := pw
    simp only [pickLoop] at h
    split at h
    · cases h
      exact ⟨w, List.mem_cons_self _ _⟩
    · obtain ⟨w', hw'⟩ := ih h
      exact ⟨w', List.mem_cons_of_mem _ hw'⟩

theorem pickWeighted_mem {α : Type} {items : List α} {f : α → JSNum} {r : ℚ}
    {x : α} (h : pickWeighted items f r = some x) : x ∈ items := by
  unfold pickWeighted at h
  dsimp only at h
  split at h
  · cases h
  · split at h
    · next y hl =>
      cases h
      obtain ⟨w, hw⟩ := pickLoop_mem hl
      exact (List.of_mem_zip hw).1
    · exact getLast?_mem h

theorem pickWeighted_singleton {α : Type} (x : α) (f : α → JSNum) (r : ℚ)
    {c : ℚ} (hc : coerceWeight (f x) = JSNum.finite c) (hpos : 0 < c) :
    pickWeighted [x] f r = some x := by
  have htot : pickTotal [x] f = JSNum.finite c := by
    simp [pickTotal, pickWeights, hc, JSNum.add]
  cases h : pickWeighted [x] f r with
  | some y =>
    have hy := pickWeighted_mem h
    simp only [List.mem_singleton] at hy
    rw [hy]
  | none =>
    exfalso
    unfold pickWeighted at h
    dsimp only at h
    split at h
    · next hle =>
      rw [htot] at hle
      simp only [JSNum.le, decide_eq_true_eq] at hle
      exact absurd hle (not_le.mpr hpos)
    · split at h
      · cases h
      · simp at h

/-- `choosePick` when a daily event bot exists. -/
theorem choosePick_event (p : BatchParams) (o : UserOracle) (used : List ℕ)
    (eb : BotRow) (hev : p.dailyEventBot = some eb) :
    choosePick p o used = some (eb, some (toNumber eb.bot_target_distance_m),
      "evenement", p.today) := by
  unfold choosePick
  rw [hev]

/-- `choosePick` when there is no event bot and the pool draw fails. -/
theorem choosePick_none (p : BatchParams) (o : UserOracle) (used : List ℕ)
    (hev : p.dailyEventBot = none)
    (hp : pickWeighted (p.challengeBots.filter (fun x => !(used.contains x.id)))
      (challengeWeight p.activeSeason) o.pickR = none) :
    choosePick p o used = none := by
  unfold choosePick
  rw [hev]
  dsimp only
  split
  · rfl
  · rw [hp]

/-- `choosePick` when there is no event bot and the pool draw succeeds. -/
theorem choosePick_pool (p : BatchParams) (o : UserOracle) (used : List ℕ)
    (b : BotRow) (hev : p.dailyEventBot = none)
    (hp : pickWeighted (p.challengeBots.filter (fun x => !(used.contains x.id)))
      (challengeWeight p.activeSeason) o.pickR = some b) :
    choosePick p o used = some (b,
      (match jitterDistance ((normalizeMeters (jsCoalesce b.bot_target_distance_m
          b.avg_distance_m)).map JSNum.finite) (3 / 20) o.jitR with
       | none => none
       | some z => some (JSNum.finite (z : ℚ))),
      jsStrOr b.bot_card_type "defi", addDays p.today 3) := by
  have hne : ¬(p.challengeBots.filter (fun x => !(used.contains x.id))).isEmpty = true := by
    intro hempty
    rw [List.isEmpty_iff] at hempty
    have := pickWeighted_mem hp
    rw [hempty] at this
    cases this
  unfold choosePick
  rw [hev]
  dsimp only
  rw [if_neg hne, hp]

/-- Positive inputs below `0.0005` normalize to `0` (not `null` and not a
positive meter count). -/
theorem normalizeMeters_small {q : ℚ} (h0 : 0 < q) (h1 : q < 1 / 2000) :
    normalizeMeters (some (JSNum.finite q)) = some 0 := by
  simp only [normalizeMeters, toNumber]
  rw [if_neg (not_le.mpr h0), if_pos (by linarith : q < 1000)]
  norm_num [jsRound]
  constructor <;> linarith

/-- A zero base is rejected by the jitter. -/
theorem jitterDistance_zero (ratio rand : ℚ) :
    jitterDistance (some (JSNum.finite 0)) ratio rand = none := by
  simp only [jitterDistance, toNumber]
  rw [if_pos le_rfl]

/-- **C10** (implicit): `normalize`'s output is not always positive — every
positive finite input below 0.0005 returns `0` rather than a positive meter
count or `null`; the downstream jitter then rejects the zero base, and the
per-user batch step drops the user/bot pairing silently: no challenge row is
inserted and the state is unchanged. -/
theorem normalize_small_claim :
    (∀ q : ℚ, 0 < q → q < 1 / 2000 →
      normalizeMeters (some (JSNum.finite q)) = some 0) ∧
    (∀ ratio rand : ℚ, jitterDistance (some (JSNum.finite 0)) ratio rand = none) ∧
    (∀ o : UserOracle, userStep paramsTiny o emptyDB [] 1 = (emptyDB, [], none)) := by
  refine ⟨fun q h0 h1 => normalizeMeters_small h0 h1,
    fun ratio rand => jitterDistance_zero ratio rand, ?_⟩
  intro o
  have hw : coerceWeight (challengeWeight none tinyTargetBot) = JSNum.finite 1 := by
    have h1 : challengeWeight none tinyTargetBot = JSNum.finite 1 := by
      simp [challengeWeight, tinyTargetBot, toNumber, JSNum.orElse, JSNum.truthy,
        JSNum.mul]
    rw [coerceWeight, h1]
    simp [JSNum.orElse, JSNum.truthy, JSNum.max0]
  have hpick := pickWeighted_singleton tinyTargetBot (challengeWeight none) o.pickR hw
    one_pos
  have hnorm : normalizeMeters
      (jsCoalesce tinyTargetBot.bot_target_distance_m tinyTargetBot.avg_distance_m) =
      some 0 := by
    have hco : jsCoalesce tinyTargetBot.bot_target_distance_m tinyTargetBot.avg_distance_m
        = some (JSNum.finite (1 / 2500)) := rfl
    rw [hco]
    exact normalizeMeters_small (by norm_num) (by norm_num)
  show assignPhase paramsTiny o emptyDB [] 1 = (emptyDB, [], none)
  have hp' : pickWeighted (paramsTiny.challengeBots.filter
        (fun x => !(([] : List ℕ).contains x.id)))
      (challengeWeight paramsTiny.activeSeason) o.pickR = some tinyTargetBot := by
    have hfil : paramsTiny.challengeBots.filter
        (fun x => !(([] : List ℕ).contains x.id)) = [tinyTargetBot] := rfl
    rw [hfil]
    exact hpick
  have hcp := choosePick_pool paramsTiny o [] tinyTargetBot rfl hp'
  rw [hnorm] at hcp
  rw [show ((some (0 : ℚ)).map JSNum.finite) = some (JSNum.finite 0) from rfl,
    jitterDistance_zero] at hcp
  unfold assignPhase
  rw [hcp]
  rfl

/-- Witness for C10 at concrete inputs. -/
theorem normalize_small_claim_witness :
    normalizeMeters (some (JSNum.finite (1 / 2500))) = some 0 ∧
    userStep paramsTiny oracle0 emptyDB [] 1 = (emptyDB, [], none) :=
  ⟨normalize_small_claim.1 (1 / 2500) (by norm_num) (by norm_num),
   normalize_small_claim.2.2 oracle0⟩

/-- **C5**: the weighted picker returns no selection exactly when the coerced
weight total is ≤ 0: if the total is ≤ 0 it returns `null`; otherwise —
whatever the draw — it returns some element of the candidate list (the
subtract-and-walk result, or the last item as the exhaustion fallback), never
`null`. -/
theorem pickWeighted_claim {α : Type} (items : List α) (weightFn : α → JSNum)
    (r : ℚ) :
    (JSNum.le (pickTotal items weightFn) (JSNum.finite 0) = true →
      pickWeighted items weightFn r = none) ∧
    (JSNum.le (pickTotal items weightFn) (JSNum.finite 0) = false →
      ∃ x, pickWeighted items weightFn r = some x ∧ x ∈ items) ∧
    (JSNum.le (pickTotal items weightFn) (JSNum.finite 0) = false →
      pickLoop (items.zip (pickWeights items weightFn))
        (JSNum.mul (JSNum.finite r) (pickTotal items weightFn)) = none →
      pickWeighted items weightFn r = items.getLast?) := by
  refine ⟨?_, ?_, ?_⟩
  · intro h
    unfold pickWeighted
    rw [if_pos h]
  · intro h
    have hne : items ≠ [] := by
      intro he
      rw [he] at h
      simp [pickTotal, pickWeights, JSNum.le] at h
    cases hp : pickWeighted items weightFn r with
    | some x => exact ⟨x, rfl, pickWeighted_mem hp⟩
    | none =>
      exfalso
      unfold pickWeighted at hp
      dsimp only at hp
      rw [if_neg (by rw [h]; exact fun hc => Bool.noConfusion hc)] at hp
      split at hp
      · cases hp
      · rw [List.getLast?_eq_getLast items hne] at hp
        cases hp
  · intro h hloop
    unfold pickWeighted
    dsimp only
    rw [if_neg (by rw [h]; exact fun hc => Bool.noConfusion hc), hloop]

/-- Witness for C5 at concrete inputs. -/
theorem pickWeighted_claim_witness :
    (pickWeighted ([] : List ℕ) (fun _ => JSNum.finite 1) (1 / 2) = none) ∧
    (∃ x, pickWeighted [5, 6] (fun _ => JSNum.finite 1) (1 / 2) = some x ∧
      x ∈ [5, 6]) :=
  ⟨(pickWeighted_claim ([] : List ℕ) (fun _ => JSNum.finite 1) (1 / 2)).1 (by decide),
   (pickWeighted_claim [5, 6] (fun _ => JSNum.finite 1) (1 / 2)).2.1 (by
      norm_num [pickTotal, pickWeights, coerceWeight, JSNum.orElse, JSNum.truthy,
        JSNum.max0, JSNum.add, JSNum.le])⟩

theorem coerceWeight_cases (w : JSNum) :
    coerceWeight w = JSNum.posInf ∨ ∃ q, 0 ≤ q ∧ coerceWeight w = JSNum.finite q := by
  rcases w with _ | _ | _ | q
  · exact Or.inr ⟨0, le_refl 0, rfl⟩
  · exact Or.inl rfl
  · exact Or.inr ⟨0, le_refl 0, rfl⟩
  · by_cases hq : q = 0
    · subst hq
      exact Or.inr ⟨0, le_refl 0, rfl⟩
    · refine Or.inr ⟨max 0 q, le_max_left 0 q, ?_⟩
      simp [coerceWeight, JSNum.orElse, JSNum.truthy, JSNum.max0, hq]

theorem mem_zip_weights {α : Type} {items : List α} {f : α → JSNum} {x : α}
    {w : JSNum} (h : (x, w) ∈ items.zip (pickWeights items f)) :
    w = coerceWeight (f x) := by
  unfold pickWeights at h
  rw [show items.zip (items.map fun it => coerceWeight (f it))
      = items.map (fun a => (a, coerceWeight (f a))) from by
    simpa using List.zip_map' id (fun it => coerceWeight (f it)) items] at h
  obtain ⟨a, _, ha⟩ := List.mem_map.mp h
  cases ha
  rfl

theorem foldl_add_finite {ws : List JSNum} (hfin : ∀ w ∈ ws, w.isFinite = true) :
    ∀ s : ℚ, ws.foldl JSNum.add (JSNum.finite s) = JSNum.finite (s + (ws.map finPart).sum) := by
  induction ws with
  | nil => intro s; simp
  | cons w t ih =>
    intro s
    obtain ⟨q, rfl⟩ : ∃ q, w = JSNum.finite q := by
      have := hfin w (List.mem_cons_self _ _)
      rcases w with _ | _ | _ | q
      · cases this
      · cases this
      · cases this
      · exact ⟨q, rfl⟩
    rw [List.foldl_cons,
      show JSNum.add (JSNum.finite s) (JSNum.finite q) = JSNum.finite (s + q) from rfl,
      ih (fun w hw => hfin w (List.mem_cons_of_mem _ hw)) (s + q)]
    simp [finPart]
    ring

/-- If the loop exhausts a list of finite weights from a positive roll, the
roll exceeded the weight sum. -/
theorem pickLoop_none_lt {α : Type} {pairs : List (α × JSNum)} {R : ℚ}
    (hfin : ∀ pw ∈ pairs, (Prod.snd pw).isFinite = true) (hR : 0 < R)
    (h : pickLoop pairs (JSNum.finite R) = none) :
    (pairs.map (fun pw => finPart pw.2)).sum < R := by
  induction pairs generalizing R with
  | nil => simpa using hR
  | cons pw rest ih =>
    obtain ⟨y, w⟩ := pw
    obtain ⟨q, rfl⟩ : ∃ q, w = JSNum.finite q := by
      have := hfin (y, w) (List.mem_cons_self _ _)
      rcases w with _ | _ | _ | q
      · cases this
      · cases this
      · cases this
      · exact ⟨q, rfl⟩
    simp only [pickLoop] at h
    rw [show JSNum.sub (JSNum.finite R) (JSNum.finite q) = JSNum.finite (R - q) from by
      simp [JSNum.sub, JSNum.add, JSNum.neg]; ring] at h
    split at h
    · cases h
    · next hle =>
      have hle' : ¬(R - q ≤ 0) := by simpa [JSNum.le] using hle
      have hq : 0 < R - q := by linarith [not_le.mp hle']
      have hrec := ih (fun pw hpw => hfin pw (List.mem_cons_of_mem _ hpw)) hq h
      have hfp : finPart (JSNum.finite q) = q := rfl
      simp only [List.map_cons, List.sum_cons, hfp]
      linarith

/-- From a positive roll, the loop only ever selects an item whose paired
weight is a positive finite value. -/
theorem pickLoop_some_pos {α : Type} {pairs : List (α × JSNum)} {R : ℚ} {x : α}
    (hnn : ∀ pw ∈ pairs, ∃ q, 0 ≤ q ∧ Prod.snd pw = JSNum.finite q) (hR : 0 < R)
    (h : pickLoop pairs (JSNum.finite R) = some x) :
    ∃ q, 0 < q ∧ (x, JSNum.finite q) ∈ pairs := by
  induction pairs generalizing R with
  | nil => cases h
  | cons pw rest ih =>
    obtain ⟨y, w⟩ := pw
    obtain ⟨q, hq0, rfl⟩ : ∃ q, 0 ≤ q ∧ w = JSNum.finite q := by
      simpa using hnn (y, w) (List.mem_cons_self _ _)
    simp only [pickLoop] at h
    rw [show JSNum.sub (JSNum.finite R) (JSNum.finite q) = JSNum.finite (R - q) from by
      simp [JSNum.sub, JSNum.add, JSNum.neg]; ring] at h
    split at h
    · next hle =>
      cases h
      have hle' : R - q ≤ 0 := by simpa [JSNum.le] using hle
      exact ⟨q, lt_of_lt_of_le hR (by linarith), List.mem_cons_self _ _⟩
    · next hle =>
      have hq : 0 < R - q := by
        have : ¬(R - q ≤ 0) := by simpa [JSNum.le] using hle
        linarith [not_le.mp this]
      obtain ⟨q', hq', hmem⟩ := ih (fun pw hpw => hnn pw (List.mem_cons_of_mem _ hpw)) hq h
      exact ⟨q', hq', List.mem_cons_of_mem _ hmem⟩

/-- **C7 counterexample**: a `+Infinity` weight is *not* coerced to 0 by
`Math.max(0, Number(w) || 0)` — it survives as `+Infinity` — and invalid or
non-finite weights are not "never selected when other items have positive
weight": with items `[1, 2]` where item 1 weighs 1 and item 2 weighs
`+Infinity`, the walk exhausts on `NaN` remainders and the fallback returns
the `+Infinity` item; and with item 1 weighing `NaN` (coerced weight 0) and
item 2 weighing 1, the draw `Math.random() = 0` makes the walk return the
zero-weight item 1. -/
theorem coerceWeight_counterexample :
    coerceWeight JSNum.posInf = JSNum.posInf ∧
    coerceWeight JSNum.posInf ≠ JSNum.finite 0 ∧
    pickWeighted [1, 2] weightWithInf (1 / 2) = some 2 ∧
    pickWeighted [1, 2] weightWithNaN 0 = some 1 := by
  refine ⟨rfl, by decide, ?_, ?_⟩
  · have htot : pickTotal [1, 2] weightWithInf = JSNum.posInf := by
      simp [pickTotal, pickWeights, weightWithInf, coerceWeight, JSNum.orElse,
        JSNum.truthy, JSNum.max0, JSNum.add]
    unfold pickWeighted
    dsimp only
    rw [htot]
    norm_num [pickLoop, pickWeights, weightWithInf, coerceWeight, JSNum.orElse,
      JSNum.truthy, JSNum.max0, JSNum.mul, JSNum.sub, JSNum.neg, JSNum.add, JSNum.le]
  · have htot : pickTotal [1, 2] weightWithNaN = JSNum.finite 1 := by
      simp [pickTotal, pickWeights, weightWithNaN, coerceWeight, JSNum.orElse,
        JSNum.truthy, JSNum.max0, JSNum.add]
    unfold pickWeighted
    dsimp only
    rw [htot]
    norm_num [pickLoop, pickWeights, weightWithNaN, coerceWeight, JSNum.orElse,
      JSNum.truthy, JSNum.max0, JSNum.mul, JSNum.sub, JSNum.neg, JSNum.add, JSNum.le]

/-- **C7 amended**: a weight of `NaN` (any non-numeric result), `-Infinity`,
or a negative number is coerced to weight 0 before summing, while
`+Infinity` survives the coercion and propagates into the total; a
coerced-to-zero item contributes nothing to the total, and — provided every
coerced weight is finite and the draw is strictly between 0 and 1 — such an
item is never selected. -/
theorem coerceWeight_amended_claim {α : Type} :
    coerceWeight JSNum.nan = JSNum.finite 0 ∧
    coerceWeight JSNum.negInf = JSNum.finite 0 ∧
    (∀ q : ℚ, q ≤ 0 → coerceWeight (JSNum.finite q) = JSNum.finite 0) ∧
    (∀ (x : α) (items : List α) (f : α → JSNum),
      coerceWeight (f x) = JSNum.finite 0 →
      pickTotal (x :: items) f = pickTotal items f) ∧
    (∀ (items : List α) (f : α → JSNum) (r : ℚ) (x : α),
      (∀ y ∈ items, (coerceWeight (f y)).isFinite = true) →
      0 < r → r < 1 → pickWeighted items f r = some x →
      coerceWeight (f x) ≠ JSNum.finite 0) := by
  refine ⟨rfl, rfl, ?_, ?_, ?_⟩
  · intro q hq
    by_cases h0 : q = 0
    · subst h0
      rfl
    · simp [coerceWeight, JSNum.orElse, JSNum.truthy, JSNum.max0, h0, max_eq_left hq]
  · intro x items f hzero
    unfold pickTotal pickWeights
    rw [List.map_cons, List.foldl_cons, hzero,
      show JSNum.add (JSNum.finite 0) (JSNum.finite 0) = JSNum.finite 0 from by
        simp [JSNum.add]]
  · intro items f r x hfin hr0 hr1 hpick hzero
    have hws : ∀ w ∈ pickWeights items f, w.isFinite = true := by
      intro w hw
      obtain ⟨y, hy, rfl⟩ := List.mem_map.mp hw
      exact hfin y hy
    have htot : pickTotal items f
        = JSNum.finite ((pickWeights items f).map finPart).sum := by
      rw [pickTotal, foldl_add_finite hws 0, zero_add]
    unfold pickWeighted at hpick
    dsimp only at hpick
    by_cases hle : JSNum.le (pickTotal items f) (JSNum.finite 0) = true
    · rw [if_pos hle] at hpick
      cases hpick
    · rw [if_neg hle] at hpick
      have hTpos : 0 < ((pickWeights items f).map finPart).sum := by
        rw [htot] at hle
        have : ¬(((pickWeights items f).map finPart).sum ≤ 0) := by
          simpa [JSNum.le] using hle
        linarith [not_le.mp this]
      have hroll : JSNum.mul (JSNum.finite r) (pickTotal items f)
          = JSNum.finite (r * ((pickWeights items f).map finPart).sum) := by
        rw [htot]
        rfl
      rw [hroll] at hpick
      have hRpos : 0 < r * ((pickWeights items f).map finPart).sum :=
        mul_pos hr0 hTpos
      split at hpick
      · next y hl =>
        cases hpick
        have hpairs : ∀ pw ∈ items.zip (pickWeights items f),
            ∃ q, 0 ≤ q ∧ Prod.snd pw = JSNum.finite q := by
          intro pw hpw
          obtain ⟨a, b⟩ := pw
          have hb := mem_zip_weights hpw
          have ha := (List.of_mem_zip hpw).1
          rcases coerceWeight_cases (f a) with hpi | ⟨q, hq0, hq⟩
          · exfalso
            have := hfin a ha
            rw [hpi] at this
            cases this
          · exact ⟨q, hq0, by rw [hb, hq]⟩
        obtain ⟨q, hqpos, hmem⟩ := pickLoop_some_pos hpairs hRpos hl
        have hweq := mem_zip_weights hmem
        rw [hzero] at hweq
        cases hweq
        exact absurd rfl (ne_of_gt hqpos)
      · next hl =>
        have hfinp : ∀ pw ∈ items.zip (pickWeights items f),
            (Prod.snd pw).isFinite = true := by
          intro pw hpw
          obtain ⟨a, b⟩ := pw
          have hb := mem_zip_weights hpw
          have ha := (List.of_mem_zip hpw).1
          rw [hb]
          exact hfin a ha
        have hlt := pickLoop_none_lt hfinp hRpos hl
        have hmap : (items.zip (pickWeights items f)).map Prod.snd
            = pickWeights items f :=
          List.map_snd_zip _ _ (by simp [pickWeights])
        have hsum : ((items.zip (pickWeights items f)).map (fun pw => finPart pw.2)).sum
            = ((pickWeights items f).map finPart).sum := by
          conv_rhs => rw [← hmap]
          rw [List.map_map]
          rfl
        rw [hsum] at hlt
        nlinarith [mul_pos (sub_pos.mpr hr1) hTpos]

/-- Witness for C7's amended claim at concrete inputs. -/
theorem coerceWeight_amended_claim_witness :
    coerceWeight (JSNum.finite (-2)) = JSNum.finite 0 ∧
    pickTotal [1, 1] weightWithNaN = pickTotal [1] weightWithNaN ∧
    coerceWeight (weightWithNaN 2) ≠ JSNum.finite 0 := by
  have hpick : pickWeighted [1, 2] weightWithNaN (1 / 2) = some 2 := by
    have htot : pickTotal [1, 2] weightWithNaN = JSNum.finite 1 := by
      simp [pickTotal, pickWeights, weightWithNaN, coerceWeight, JSNum.orElse,
        JSNum.truthy, JSNum.max0, JSNum.add]
    unfold pickWeighted
    dsimp only
    rw [htot]
    norm_num [pickLoop, pickWeights, weightWithNaN, coerceWeight, JSNum.orElse,
      JSNum.truthy, JSNum.max0, JSNum.mul, JSNum.sub, JSNum.neg, JSNum.add, JSNum.le]
  refine ⟨(coerceWeight_amended_claim (α := ℕ)).2.2.1 (-2) (by norm_num),
    (coerceWeight_amended_claim (α := ℕ)).2.2.2.1 1 [1] weightWithNaN rfl,
    (coerceWeight_amended_claim (α := ℕ)).2.2.2.2 [1, 2] weightWithNaN (1 / 2) 2
      ?_ (by norm_num) (by norm_num) hpick⟩
  intro y hy
  fin_cases hy <;> rfl

theorem orElse_toNumber_eq_amended (dr : Option JSNum) :
    JSNum.orElse (toNumber dr) (JSNum.finite 1) = amendedDropRate dr := by
  rcases dr with _ | x
  · rfl
  · rcases x with _ | _ | _ | q
    · rfl
    · rfl
    · rfl
    · by_cases hq : q = 0
      · subst hq
        rfl
      · simp [toNumber, JSNum.orElse, JSNum.truthy, amendedDropRate, hq]

/-- **C6 counterexample**: a stored `drop_rate` of `0` — a present, valid,
non-negative weight — is replaced by the default `1` by the code
(`Number(b.bot_drop_rate) || 1` treats `0` as falsy), in both the
challenge-pool composition and the event-pool weight, so the picker's weight
is not `drop_rate × season_boost × rarity_penalty` for such a bot. -/
theorem challengeWeight_counterexample :
    challengeWeight none zeroRateBot = JSNum.finite 1 ∧
    specEffectiveWeight none zeroRateBot = JSNum.finite 0 ∧
    challengeWeight none zeroRateBot ≠ specEffectiveWeight none zeroRateBot ∧
    eventWeight zeroRateBot = JSNum.finite 1 ∧
    specEventWeight zeroRateBot = JSNum.finite 0 ∧
    eventWeight zeroRateBot ≠ specEventWeight zeroRateBot := by
  have h1 : challengeWeight none zeroRateBot = JSNum.finite 1 := by
    simp [challengeWeight, zeroRateBot, toNumber, JSNum.orElse, JSNum.truthy, JSNum.mul]
  have h2 : specEffectiveWeight none zeroRateBot = JSNum.finite 0 := by
    simp [specEffectiveWeight, zeroRateBot, JSNum.mul]
  have h4 : eventWeight zeroRateBot = JSNum.finite 1 := by
    simp [eventWeight, zeroRateBot, toNumber, JSNum.orElse, JSNum.truthy]
  have h5 : specEventWeight zeroRateBot = JSNum.finite 0 := rfl
  refine ⟨h1, h2, ?_, h4, h5, ?_⟩
  · rw [h1, h2]
    intro hc
    exact one_ne_zero (by injection hc)
  · rw [h4, h5]
    intro hc
    exact one_ne_zero (by injection hc)

/-- **C6 amended**: for every bot in the challenge pool the picker's weight
equals `drop_rate' × season_boost × rarity_penalty`, and event-pool draws
use `drop_rate'` alone, where `drop_rate'` is the stored drop rate except
that absence, an invalid (`NaN`) value, **or a stored zero** defaults to 1;
`season_boost` is 1.5 exactly when the bot's season affinity equals the
resolved season, and `rarity_penalty` is 0.5 exactly for `rare` card
types. -/
theorem challengeWeight_amended_claim :
    (∀ (activeSeason : Option ℤ) (b : BotRow),
      challengeWeight activeSeason b = amendedEffectiveWeight activeSeason b) ∧
    (∀ b : BotRow, eventWeight b = amendedEventWeight b) := by
  constructor
  · intro as b
    have hdr := orElse_toNumber_eq_amended b.bot_drop_rate
    cases as with
    | none =>
      simp only [challengeWeight, amendedEffectiveWeight, hdr]
      simp [beq_iff_eq]
    | some s =>
      cases hbs : b.bot_season_int with
      | none =>
        simp only [challengeWeight, amendedEffectiveWeight, hdr, hbs, jsSeasonEq]
        simp [beq_iff_eq]
      | some bs =>
        by_cases h : bs = s
        · simp only [challengeWeight, amendedEffectiveWeight, hdr, hbs, jsSeasonEq]
          simp [beq_iff_eq, h]
        · simp only [challengeWeight, amendedEffectiveWeight, hdr, hbs, jsSeasonEq]
          simp [beq_iff_eq, h]
  · intro b
    exact orElse_toNumber_eq_amended b.bot_drop_rate

/-- **C2**: if a daily event bot was selected and the user holds an active
challenge with `due_date ≥ today`, the per-user batch step transitions that
challenge to `expired` and inserts a new `evenement` challenge with
`status = active`, `start_date = due_date = today`, and target exactly the
event bot's `bot_target_distance_m` (no jitter); the used-bots set is left
unchanged. -/
theorem event_override_claim (p : BatchParams) (o : UserOracle) (db : DB)
    (used : List ℕ) (uid : ℕ) (eb : BotRow) (a : Challenge) (t : ℚ)
    (heb : p.dailyEventBot = some eb)
    (ht : toNumber eb.bot_target_distance_m = JSNum.finite t) (htpos : 0 < t)
    (ha : getActiveCh db.challenges uid = some a) (hdue : p.today ≤ a.due_date) :
    (userStep p o db used uid).1.challenges =
      { id := o.challengeId, user_id := uid, bot_id := eb.id, ctype := "evenement",
        status := "active", target_distance_m := JSNum.finite t,
        start_date := p.today, due_date := p.today, completed_session_id := none }
        :: expireById db.challenges a.id ∧
    (userStep p o db used uid).2.2 =
      some { id := o.challengeId, user_id := uid, bot_id := eb.id,
             ctype := "evenement", status := "active",
             target_distance_m := JSNum.finite t, start_date := p.today,
             due_date := p.today, completed_session_id := none } ∧
    (userStep p o db used uid).2.1 = used ∧
    (∀ c ∈ expireById db.challenges a.id, c.id = a.id → c.status = "expired") := by
  have htr : JSNum.truthy (JSNum.finite t) = true := by
    simp [JSNum.truthy]
    exact ne_of_gt htpos
  have hstep : userStep p o db used uid
      = assignPhase p o { db with challenges := expireById db.challenges a.id }
          used uid := by
    unfold userStep
    simp only [ha]
    rw [if_neg (not_lt.mpr hdue), if_pos ⟨by rw [heb]; rfl, hdue⟩]
  have hassign : assignPhase p o { db with challenges := expireById db.challenges a.id }
      used uid
      = (ensureBotSession
          (createNotification
            { db with challenges :=
                { id := o.challengeId, user_id := uid, bot_id := eb.id,
                  ctype := "evenement", status := "active",
                  target_distance_m := JSNum.finite t, start_date := p.today,
                  due_date := p.today, completed_session_id := none }
                :: expireById db.challenges a.id }
            uid "event_start")
          o.sessionId eb.id p.today (JSNum.finite t),
        used,
        some { id := o.challengeId, user_id := uid, bot_id := eb.id,
               ctype := "evenement", status := "active",
               target_distance_m := JSNum.finite t, start_date := p.today,
               due_date := p.today, completed_session_id := none }) := by
    unfold assignPhase
    rw [choosePick_event p o used eb heb, ht]
    unfold finishAssign
    simp only [htr, Bool.not_true, Bool.false_eq_true, if_false,
      ne_eq, not_true_eq_false, ite_false, ite_true, beq_self_eq_true]
  rw [hstep, hassign]
  refine ⟨?_, rfl, rfl, fun c hc hcid => expireById_status hc hcid⟩
  rw [ensureBotSession_challenges, createNotification_challenges]

/-- Witness for C2 at a concrete scenario. -/
theorem event_override_claim_witness :
    (userStep paramsEvent oracle0 db0 [] 1).2.1 = ([] : List ℕ) ∧
    ∀ c ∈ expireById db0.challenges activeCh0.id, c.id = activeCh0.id →
      c.status = "expired" :=
  (event_override_claim paramsEvent oracle0 db0 [] 1 eventBot0 activeCh0 8000 rfl rfl
    (by norm_num) rfl (by rw [String.le_iff_toList_le]; decide)).2.2

theorem condCompleteUpdate_pos {chs : List Challenge} {cid s : ℕ} {c : Challenge}
    (hc : c ∈ chs) (hid : c.id = cid) (hstat : c.status = "active") :
    (condCompleteUpdate chs cid s).2 ≠ 0 := by
  unfold condCompleteUpdate
  simp only
  intro h
  rw [List.countP_eq_zero] at h
  exact h c hc (by simp [hid, hstat])

theorem condCompleteUpdate_noop {chs : List Challenge} {cid s : ℕ}
    (h : ∀ c ∈ chs, c.id = cid → c.status ≠ "active") :
    (condCompleteUpdate chs cid s).1 = chs ∧
    (condCompleteUpdate chs cid s).2 = 0 := by
  unfold condCompleteUpdate
  constructor
  · simp only
    have : chs.map (fun c =>
        if c.id = cid ∧ c.status = "active"
        then { c with status := "completed", completed_session_id := some s }
        else c) = chs.map id := by
      apply List.map_congr_left
      intro c hc
      rw [if_neg (fun hand => h c hc hand.1 hand.2), id]
    rw [this, List.map_id]
  · simp only
    rw [List.countP_eq_zero]
    intro c hc
    simp only [Bool.and_eq_true, beq_iff_eq, not_and]
    exact h c hc

theorem condCompleteUpdate_mem {chs : List Challenge} {cid sid : ℕ} {c : Challenge}
    (hc : c ∈ chs) (hid : c.id = cid) (hstat : c.status = "active") :
    { c with status := "completed", completed_session_id := some sid }
      ∈ (condCompleteUpdate chs cid sid).1 := by
  unfold condCompleteUpdate
  simp only
  refine List.mem_map.mpr ⟨c, hc, ?_⟩
  rw [if_pos ⟨hid, hstat⟩]

/-- **C3**: the completion detector completes the user's most recent active
challenge exactly when the session date lies in the challenge window, the
session distance reaches the target, and the conditional update still finds
the row active; when any precondition fails, or the conditional update
affects zero rows (a concurrent writer already changed the row), the call is
a no-op: no CardResult row, no notification, and an unchanged state. -/
theorem handleChallengeCompletion_claim (db : DB) (uid sid : ℕ) (d : String)
    (dist : ℚ) :
    (getActiveCh db.challenges uid = none →
      handleChallengeCompletion db uid sid d dist = (db, none)) ∧
    (∀ ch, getActiveCh db.challenges uid = some ch →
      isDateBetween d ch.start_date ch.due_date = false →
      handleChallengeCompletion db uid sid d dist = (db, none)) ∧
    (∀ ch, getActiveCh db.challenges uid = some ch →
      JSNum.lt (JSNum.finite dist) ch.target_distance_m = true →
      handleChallengeCompletion db uid sid d dist = (db, none)) ∧
    (∀ ch, getActiveCh db.challenges uid = some ch →
      isDateBetween d ch.start_date ch.due_date = true →
      JSNum.lt (JSNum.finite dist) ch.target_distance_m = false →
      (handleChallengeCompletion db uid sid d dist).2 = some ch ∧
      (handleChallengeCompletion db uid sid d dist).1.challenges
        = (condCompleteUpdate db.challenges ch.id sid).1 ∧
      { ch with status := "completed", completed_session_id := some sid }
        ∈ (handleChallengeCompletion db uid sid d dist).1.challenges ∧
      (handleChallengeCompletion db uid sid d dist).1.cardResults
        = { user_id := uid, bot_id := ch.bot_id, ctype := ch.ctype,
            distance_m := dist, target_distance_m := ch.target_distance_m,
            session_id := sid, achieved_at := d } :: db.cardResults) ∧
    (∀ ch (db2 : DB), getActiveCh db.challenges uid = some ch →
      (∀ c ∈ db2.challenges, c.id = ch.id → c.status ≠ "active") →
      handleChallengeCompletionFrom db.challenges db2 uid sid d dist
        = (db2, none)) := by
  refine ⟨?_, ?_, ?_, ?_, ?_⟩
  · intro h
    unfold handleChallengeCompletion handleChallengeCompletionFrom
    rw [h]
  · intro ch hch hdate
    unfold handleChallengeCompletion handleChallengeCompletionFrom
    rw [hch]
    simp only [hdate, Bool.not_false, if_true]
  · intro ch hch hdist
    unfold handleChallengeCompletion handleChallengeCompletionFrom
    rw [hch]
    by_cases hdate : isDateBetween d ch.start_date ch.due_date
    · simp only [hdate, Bool.not_true, Bool.false_eq_true, if_false, hdist, if_true]
    · simp only [Bool.not_eq_true] at hdate
      simp only [hdate, Bool.not_false, if_true]
  · intro ch hch hdate hdist
    obtain ⟨hmem, hstat, _⟩ := getActiveCh_some_facts hch
    have hpos := condCompleteUpdate_pos hmem rfl hstat (s := sid)
    unfold handleChallengeCompletion handleChallengeCompletionFrom
    rw [hch]
    simp only [hdate, Bool.not_true, Bool.false_eq_true, if_false, hdist,
      if_neg hpos]
    exact ⟨by trivial, by trivial, condCompleteUpdate_mem hmem rfl hstat, by trivial⟩
  · intro ch db2 hch hnoact
    obtain ⟨hupd1, hupd2⟩ := condCompleteUpdate_noop (s := sid) hnoact
    unfold handleChallengeCompletionFrom
    rw [hch]
    by_cases hdate : isDateBetween d ch.start_date ch.due_date
    · by_cases hdist : JSNum.lt (JSNum.finite dist) ch.target_distance_m
      · simp only [hdate, Bool.not_true, Bool.false_eq_true, if_false, hdist, if_true]
      · simp only [Bool.not_eq_true] at hdist
        simp only [hdate, Bool.not_true, Bool.false_eq_true, if_false, hdist,
          if_pos hupd2, hupd1]
    · simp only [Bool.not_eq_true] at hdate
      simp only [hdate, Bool.not_false, if_true]

/-- Witness for C3 at concrete scenarios: an empty store is a no-op, and a
qualifying session completes the concrete active challenge. -/
theorem handleChallengeCompletion_claim_witness :
    handleChallengeCompletion emptyDB 1 99 "2026-10-10" 5200 = (emptyDB, none) ∧
    (handleChallengeCompletion db0 1 99 "2026-10-10" 5200).2 = some activeCh0 := by
  have hdate : isDateBetween "2026-10-10" activeCh0.start_date activeCh0.due_date
      = true := by
    unfold isDateBetween
    rw [if_neg (by simp [activeCh0])]
    rw [Bool.and_eq_true, decide_eq_true_eq, decide_eq_true_eq]
    constructor <;> (rw [String.le_iff_toList_le]; decide)
  have hdist : JSNum.lt (JSNum.finite 5200) activeCh0.target_distance_m = false := by
    show JSNum.lt (JSNum.finite 5200) (JSNum.finite 5000) = false
    simp [JSNum.lt]
    norm_num
  constructor
  · exact (handleChallengeCompletion_claim emptyDB 1 99 "2026-10-10" 5200).1 rfl
  · exact ((handleChallengeCompletion_claim db0 1 99 "2026-10-10" 5200).2.2.2.1
      activeCh0 rfl hdate hdist).1

/-- The assignment phase either leaves the challenge table unchanged or
prepends one `active` row belonging to the processed user. -/
theorem finishAssign_challenges (p : BatchParams) (o : UserOracle) (db : DB)
    (used : List ℕ) (uid : ℕ)
    (sel : Option (BotRow × Option JSNum × String × String)) :
    (finishAssign p o db used uid sel).1.challenges = db.challenges ∨
    (∃ ch : Challenge, (finishAssign p o db used uid sel).1.challenges
        = ch :: db.challenges ∧ ch.user_id = uid ∧ ch.status = "active") := by
  rcases sel with _ | ⟨bot, tOpt, ctype, dueDate⟩
  · exact Or.inl rfl
  · rcases tOpt with _ | t
    · exact Or.inl rfl
    · unfold finishAssign
      dsimp only
      split
      · exact Or.inl rfl
      · right
        exact ⟨_, by rw [ensureBotSession_challenges, createNotification_challenges],
          rfl, rfl⟩

theorem assignPhase_cases (p : BatchParams) (o : UserOracle) (db : DB)
    (used : List ℕ) (uid : ℕ) :
    (assignPhase p o db used uid).1.challenges = db.challenges ∨
    (∃ ch : Challenge, (assignPhase p o db used uid).1.challenges
        = ch :: db.challenges ∧ ch.user_id = uid ∧ ch.status = "active") := by
  unfold assignPhase
  exact finishAssign_challenges p o db used uid (choosePick p o used)

theorem assignPhase_count {p : BatchParams} {o : UserOracle} {db : DB}
    {used : List ℕ} {uid : ℕ} (h : ∀ u, activeCount db.challenges u ≤ 1)
    (h0 : activeCount db.challenges uid = 0) :
    ∀ u, activeCount (assignPhase p o db used uid).1.challenges u ≤ 1 := by
  intro u
  rcases assignPhase_cases p o db used uid with hc | ⟨ch, hc, hu, _⟩
  · rw [hc]
    exact h u
  · rw [hc, activeCount_cons]
    by_cases huu : u = uid
    · subst huu
      rw [h0]
      split_ifs <;> norm_num
    · have hne : ¬(ch.status = "active" ∧ ch.user_id = u) := fun hand =>
        huu (by rw [← hand.2, hu])
      rw [if_neg hne, Nat.add_zero]
      exact h u

theorem userStep_count (p : BatchParams) (o : UserOracle) (db : DB)
    (used : List ℕ) (uid : ℕ) (h : ∀ u, activeCount db.challenges u ≤ 1) :
    ∀ u, activeCount (userStep p o db used uid).1.challenges u ≤ 1 := by
  unfold userStep
  cases ha : getActiveCh db.challenges uid with
  | none => exact assignPhase_count h (getActiveCh_none_count ha)
  | some a =>
    dsimp only
    by_cases hdue : a.due_date < p.today
    · have hcond : ¬(p.dailyEventBot.isSome = true ∧ p.today ≤ a.due_date) :=
        fun hc => absurd hc.2 (not_le.mpr hdue)
      rw [if_pos hdue, if_neg hcond, if_neg (not_le.mpr hdue)]
      apply assignPhase_count
      · intro u
        exact le_trans (activeCount_expireById_le _ _ _) (h u)
      · exact activeCount_expire_self ha (h uid)
    · have hd : p.today ≤ a.due_date := not_lt.mp hdue
      rw [if_neg hdue]
      by_cases hev : p.dailyEventBot.isSome = true
      · rw [if_pos ⟨hev, hd⟩]
        apply assignPhase_count
        · intro u
          exact le_trans (activeCount_expireById_le _ _ _) (h u)
        · exact activeCount_expire_self ha (h uid)
      · rw [if_neg (fun hc => hev hc.1), if_pos hd]
        exact h

theorem activeCount_condComplete_le (chs : List Challenge) (cid sid u : ℕ) :
    activeCount (condCompleteUpdate chs cid sid).1 u ≤ activeCount chs u := by
  unfold activeCount condCompleteUpdate
  simp only
  rw [List.countP_map]
  apply List.countP_mono_left
  intro c _ hc
  by_cases h : c.id = cid ∧ c.status = "active"
  · simp [Function.comp, h] at hc
  · simpa [Function.comp, h] using hc

theorem handleChallengeCompletion_count (db : DB) (uid sid : ℕ) (d : String)
    (dist : ℚ) (h : ∀ u, activeCount db.challenges u ≤ 1) :
    ∀ u, activeCount
      (handleChallengeCompletion db uid sid d dist).1.challenges u ≤ 1 := by
  intro u
  unfold handleChallengeCompletion handleChallengeCompletionFrom
  cases hch : getActiveCh db.challenges uid with
  | none => exact h u
  | some ch =>
    dsimp only
    split
    · exact h u
    · split
      · exact h u
      · split
        · exact le_trans (activeCount_condComplete_le _ _ _ _) (h u)
        · exact le_trans (activeCount_condComplete_le _ _ _ _) (h u)

/-- **C1**: assuming every user has at most one `status = active` challenge
row, both the per-user batch step and the request-time completion transition
preserve the bound, for every user. -/
theorem single_active_claim (p : BatchParams) (o : UserOracle) (db : DB)
    (used : List ℕ) (uid uid2 sid : ℕ) (d : String) (dist : ℚ)
    (h : ∀ u, activeCount db.challenges u ≤ 1) :
    (∀ u, activeCount (userStep p o db used uid).1.challenges u ≤ 1) ∧
    (∀ u, activeCount
      (handleChallengeCompletion db uid2 sid d dist).1.challenges u ≤ 1) :=
  ⟨userStep_count p o db used uid h,
   handleChallengeCompletion_count db uid2 sid d dist h⟩

/-- Witness for C1 at a concrete scenario. -/
theorem single_active_claim_witness :
    (∀ u, activeCount (userStep paramsEvent oracle0 db0 [] 1).1.challenges u ≤ 1) ∧
    (∀ u, activeCount
      (handleChallengeCompletion db0 1 99 "2026-10-10" 5200).1.challenges u ≤ 1) :=
  single_active_claim paramsEvent oracle0 db0 [] 1 1 99 "2026-10-10" 5200
    (fun u => le_trans (List.countP_le_length _) (by simp [db0]))

/-- `finishAssign` either inserts nothing and keeps the used set, or inserts
exactly the built challenge row and updates the used set by the non-event
rule. -/
theorem finishAssign_spec (p : BatchParams) (o : UserOracle) (db : DB)
    (used : List ℕ) (uid : ℕ)
    (sel : Option (BotRow × Option JSNum × String × String)) :
    ((finishAssign p o db used uid sel).2.2 = none ∧
      (finishAssign p o db used uid sel).2.1 = used) ∨
    ∃ bot t ctype dueDate,
      sel = some (bot, some t, ctype, dueDate) ∧
      (finishAssign p o db used uid sel).2.2 =
        some { id := o.challengeId, user_id := uid, bot_id := bot.id,
               ctype := ctype, status := "active", target_distance_m := t,
               start_date := p.today, due_date := dueDate,
               completed_session_id := none } ∧
      (finishAssign p o db used uid sel).2.1 =
        (if ctype ≠ "evenement" then bot.id :: used else used) := by
  rcases sel with _ | ⟨bot, tOpt, ctype, dueDate⟩
  · exact Or.inl ⟨rfl, rfl⟩
  · rcases tOpt with _ | t
    · exact Or.inl ⟨rfl, rfl⟩
    · unfold finishAssign
      dsimp only
      split
      · exact Or.inl ⟨rfl, rfl⟩
      · exact Or.inr ⟨bot, t, ctype, dueDate, rfl, rfl, rfl⟩

/-- What the assignment phase does to the used-bots set and the inserted
row: either nothing is inserted and the set is unchanged; or an `evenement`
row is inserted and the set is unchanged; or a non-event row is inserted
whose bot was not in the set and is added to it. -/
theorem assignPhase_spec (p : BatchParams) (o : UserOracle) (db : DB)
    (used : List ℕ) (uid : ℕ) :
    ((assignPhase p o db used uid).2.2 = none ∧
      (assignPhase p o db used uid).2.1 = used) ∨
    (∃ ch : Challenge, (assignPhase p o db used uid).2.2 = some ch ∧
      (ch.ctype = "evenement" ∧ (assignPhase p o db used uid).2.1 = used ∨
       ch.ctype ≠ "evenement" ∧ ch.bot_id ∉ used ∧
         (assignPhase p o db used uid).2.1 = ch.bot_id :: used)) := by
  unfold assignPhase
  rcases finishAssign_spec p o db used uid (choosePick p o used) with
    h | ⟨bot, t, ctype, dueDate, hsel, h22, h21⟩
  · exact Or.inl h
  · right
    refine ⟨_, h22, ?_⟩
    cases hev : p.dailyEventBot with
    | some eb =>
      rw [choosePick_event p o used eb hev] at hsel
      simp only [Option.some.injEq, Prod.mk.injEq] at hsel
      obtain ⟨heb, htOpt, hty, hdd⟩ := hsel
      subst hty
      refine Or.inl ⟨rfl, ?_⟩
      rw [h21, if_neg (show ¬("evenement" : String) ≠ "evenement" from
        fun hne => hne rfl)]
    | none =>
      cases hp : pickWeighted (p.challengeBots.filter (fun x => !(used.contains x.id)))
          (challengeWeight p.activeSeason) o.pickR with
      | none =>
        rw [choosePick_none p o used hev hp] at hsel
        cases hsel
      | some b =>
        have hbnot : b.id ∉ used := by
          have := (List.mem_filter.mp (pickWeighted_mem hp)).2
          simpa using this
        rw [choosePick_pool p o used b hev hp] at hsel
        simp only [Option.some.injEq, Prod.mk.injEq] at hsel
        obtain ⟨heb, htOpt, hty, hdd⟩ := hsel
        subst hty
        subst heb
        by_cases hty2 : jsStrOr b.bot_card_type "defi" = "evenement"
        · refine Or.inl ⟨hty2, ?_⟩
          rw [h21, if_neg (fun hne => hne hty2)]
        · refine Or.inr ⟨hty2, hbnot, ?_⟩
          rw [h21, if_pos hty2]

/-- `userStep` lifted version of `assignPhase_spec`. -/
theorem userStep_spec (p : BatchParams) (o : UserOracle) (db : DB)
    (used : List ℕ) (uid : ℕ) :
    ((userStep p o db used uid).2.2 = none ∧
      (userStep p o db used uid).2.1 = used) ∨
    (∃ ch : Challenge, (userStep p o db used uid).2.2 = some ch ∧
      (ch.ctype = "evenement" ∧ (userStep p o db used uid).2.1 = used ∨
       ch.ctype ≠ "evenement" ∧ ch.bot_id ∉ used ∧
         (userStep p o db used uid).2.1 = ch.bot_id :: used)) := by
  unfold userStep
  cases ha : getActiveCh db.challenges uid with
  | none => exact assignPhase_spec p o db used uid
  | some a =>
    dsimp only
    by_cases h2 : p.dailyEventBot.isSome = true ∧ p.today ≤ a.due_date
    · rw [if_pos h2]
      exact assignPhase_spec p o _ used uid
    · rw [if_neg h2]
      by_cases h3 : p.today ≤ a.due_date
      · rw [if_pos h3]
        exact Or.inl ⟨rfl, rfl⟩
      · rw [if_neg h3]
        exact assignPhase_spec p o _ used uid

/-- Batch-run invariant: the used-bots set only grows; every non-event
challenge inserted during the run used a bot outside the set it started
from, now recorded in the final set; and the inserted rows assign pairwise
distinct non-event bots. -/
theorem batchRun_inv (p : BatchParams) (oracles : ℕ → UserOracle) :
    ∀ (users : List ℕ) (k : ℕ) (db : DB) (used : List ℕ),
      used ⊆ (batchRun p oracles users k db used).2.1 ∧
      (∀ c ∈ (batchRun p oracles users k db used).2.2, c.ctype ≠ "evenement" →
        c.bot_id ∉ used ∧ c.bot_id ∈ (batchRun p oracles users k db used).2.1) ∧
      List.Pairwise (fun c1 c2 => c1.ctype ≠ "evenement" → c2.ctype ≠ "evenement" →
        c1.bot_id ≠ c2.bot_id) (batchRun p oracles users k db used).2.2 := by
  intro users
  induction users with
  | nil =>
    intro k db used
    exact ⟨fun x hx => hx, by simp [batchRun], by simp [batchRun]⟩
  | cons u rest ih =>
    intro k db used
    simp only [batchRun]
    rcases userStep_spec p (oracles k) db used u with ⟨hnone, husd⟩ |
        ⟨ch, hsome, hcase⟩
    · rw [hnone, husd]
      simp only [Option.toList_none, List.nil_append]
      exact ih (k + 1) _ used
    · rw [hsome]
      rcases hcase with ⟨hev, husd⟩ | ⟨hty, hnm, husd⟩
      · rw [husd]
        obtain ⟨ih1, ih2, ih3⟩ := ih (k + 1) (userStep p (oracles k) db used u).1 used
        refine ⟨ih1, ?_, ?_⟩
        · intro c hc hcne
          simp only [Option.toList_some, List.cons_append, List.nil_append,
            List.mem_cons] at hc
          rcases hc with rfl | hc
          · exact absurd hev hcne
          · exact ih2 c hc hcne
        · simp only [Option.toList_some, List.cons_append, List.nil_append]
          refine List.Pairwise.cons ?_ ih3
          intro c2 _ hch _
          exact absurd hev hch
      · rw [husd]
        obtain ⟨ih1, ih2, ih3⟩ := ih (k + 1) (userStep p (oracles k) db used u).1
          (ch.bot_id :: used)
        refine ⟨fun x hx => ih1 (List.mem_cons_of_mem _ hx), ?_, ?_⟩
        · intro c hc hcne
          simp only [Option.toList_some, List.cons_append, List.nil_append,
            List.mem_cons] at hc
          rcases hc with rfl | hc
          · exact ⟨hnm, ih1 (List.mem_cons_self _ _)⟩
          · obtain ⟨hc1, hc2⟩ := ih2 c hc hcne
            exact ⟨fun hx => hc1 (List.mem_cons_of_mem _ hx), hc2⟩
        · simp only [Option.toList_some, List.cons_append, List.nil_append]
          refine List.Pairwise.cons ?_ ih3
          intro c2 hc2 _ hc2ne heq
          obtain ⟨hc1, _⟩ := ih2 c2 hc2 hc2ne
          refine hc1 ?_
          rw [← heq]
          exact List.mem_cons_self _ _

/-- **C4**: within one batch run, no two distinct inserted challenges assign
the same non-event bot (so no two distinct users share a non-event
opponent): every non-event assignment draws only from the pool minus the
used-today set, the drawn bot is added to the set before any later user's
draw, and event picks are never added. -/
theorem bot_exclusivity_claim (p : BatchParams) (oracles : ℕ → UserOracle)
    (users : List ℕ) (k : ℕ) (db : DB) (used : List ℕ) :
    List.Pairwise (fun c1 c2 => c1.ctype ≠ "evenement" → c2.ctype ≠ "evenement" →
      c1.bot_id ≠ c2.bot_id) (batchRun p oracles users k db used).2.2 :=
  (batchRun_inv p oracles users k db used).2.2
